import Mathlib

/-!
Verification of `cupyx/scipy/linalg/_matfuncs.py` (Khatri-Rao product, matrix
exponential `expm` by scaling-and-squaring with a [13/13] Pade approximant,
and the derived matrix trigonometric functions `cosm`/`sinm`).

Modelling conventions:
* Matrices are `Matrix (Fin n) (Fin m) F` over an exact scalar field; floating
  point arithmetic is idealized as exact arithmetic (`ℚ` for the real scalar
  field, `QC` -- rationals with an adjoined imaginary unit -- for the complex
  one).
* The dense linear algebra collaborator's scalar absolute value (used by the
  induced 1-norm) and scalar exponential are opaque external operations; they
  are passed to `expm` as parameters `anorm` and `aexp`.
* `math.ceil(math.log2 x)` is exactified as `Int.clog 2 x`; the bridge to
  `Real.logb` is proved below.
* Shape behavior of `expm` on arbitrary rectangular inputs (numpy-style
  broadcasting of `a - eye(n)*mu`, matmul dimension checks, the empty early
  return) is modelled by `expmShape`, and the rank check of `khatri_rao` by
  `khatri_raoShape`.
-/

namespace Matfuncs

/-! ## Khatri-Rao product -/

/-- Error kinds raised by `khatri_rao`: `shapeMismatch` models the
`ValueError` with the column-count message raised by the source, and
`dimMismatch` the error raised by the dimensionality assertion
`_util._assert_2d`. -/
inductive KErr
  | shapeMismatch
  | dimMismatch
  deriving DecidableEq

/-- A dynamically-shaped two-dimensional dense array over `ℚ` (rows, columns
and entries), the data model for `khatri_rao` after its two-dimensionality
assertions have passed. -/
structure NDArray2 where
  r : ℕ
  c : ℕ
  d : Matrix (Fin r) (Fin c) ℚ

/-- Khatri-Rao product, translated from `khatri_rao` in
`src/cupyx/scipy/linalg/_matfuncs.py`.  After the column-count check, the
source computes `c = a[..., :, None, :] * b[..., None, :, :]` and reshapes to
`(-1,) + c.shape[2:]`: the broadcast product has entries
`c[i1, i2, j] = a[i1, j] * b[i2, j]`, and the C-order reshape flattens the
pair `(i1, i2)` to the row index `i1 * n2 + i2`, i.e. row `i` of the result
reads entry `(i / n2, j)` of `a` times entry `(i % n2, j)` of `b`. -/
def khatri_rao (x y : NDArray2) : Except KErr NDArray2 :=
  if h : x.c ≠ y.c then
    .error .shapeMismatch
  else
    .ok ⟨x.r * y.r, x.c,
      Matrix.of fun i j => x.d i.divNat j * y.d i.modNat (Fin.cast (of_not_not h) j)⟩

/-- Flat C-order row index of the pair `(i, j)` in an array of `m * n` rows. -/
def kidx {m n : ℕ} (i : Fin m) (j : Fin n) : Fin (m * n) :=
  ⟨i.val * n + j.val, by
    have h1 : i.val * n + j.val < (i.val + 1) * n := by
      have := j.isLt
      simp only [Nat.succ_mul]
      omega
    have h2 : (i.val + 1) * n ≤ m * n := Nat.mul_le_mul_right n i.isLt
    omega⟩

/-- Modelled from the spec: the dimensionality assertions
`_util._assert_2d(a)`, `_util._assert_2d(b)` called by `khatri_rao` are not
under `src/`; per the spec (section 7) a `DimensionError` is "raised when
KhatriRao's inputs are not two-dimensional".  This function models the shape
behavior of `khatri_rao` on an input of arbitrary rank: the two rank
assertions, then the column-count check, then the `(n1*n2, k)` result shape
of the broadcast-and-reshape product (both translated from the source). -/
def khatri_raoShape (sa sb : List ℕ) : Except KErr (List ℕ) :=
  if sa.length ≠ 2 then .error .dimMismatch
  else if sb.length ≠ 2 then .error .dimMismatch
  else if sa.getD 1 0 ≠ sb.getD 1 0 then .error .shapeMismatch
  else .ok [sa.getD 0 0 * sb.getD 0 0, sa.getD 1 0]

/-! ## Shape-level model of `expm` on rectangular inputs -/

/-- Kinds of calls `expm` makes into the dense linear algebra collaborator:
the trace shift (diagonal sum and `eye`-subtraction), the induced 1-norm, the
matrix multiplications, the dense linear solve, and the squaring loop. -/
inductive Op
  | traceShift
  | norm
  | matmul
  | solveLin
  | squaring
  deriving DecidableEq

/-- Shape-level errors of `expm`: a failed elementwise broadcast or a failed
matrix-multiplication dimension check inside the collaborator. -/
inductive NpErr
  | broadcastMismatch
  | matmulMismatch
  deriving DecidableEq

/-- Modelled from the spec: one axis of the "standard broadcasting rules"
(spec section 4.1) of the array collaborator: two dimension sizes are
compatible when they are equal or one of them is 1, and the broadcast size is
the larger one. -/
def broadcastDim (p q : ℕ) : Option ℕ :=
  if p = q then some p
  else if p = 1 then some q
  else if q = 1 then some p
  else none

/-- Shape-level behavior of `expm` on a two-dimensional input of shape
`(r, c)`, translated from `expm` in `src/cupyx/scipy/linalg/_matfuncs.py`:

* `a.size == 0` (that is `r * c = 0`) returns a `(0, 0)` array of the input's
  dtype at once, with no collaborator calls (empty `Op` list);
* otherwise `n = a.shape[0] = r`, and `A = a - eye(n) * mu` broadcasts the
  shapes `(r, c)` and `(r, r)`: the row axes agree and the column axes
  broadcast via `broadcastDim c r` to `m`, else the subtraction raises;
* `A2 = A @ A` on the `(r, m)` result requires `m = r`, else matmul raises;
* in the surviving cases `A` is square `(r, r)`, every later step (powers,
  Pade parts, solve, squaring, scalar multiply) stays `(r, r)`, and the
  result has shape `(r, r)`.

The `Op` list records which kinds of collaborator calls occur on the taken
path (not individual call counts); the dense solve is assumed nonsingular,
its value-level contract being modelled separately by `solve`. -/
def expmShape (r c : ℕ) : Except NpErr ((ℕ × ℕ) × List Op) :=
  if r * c = 0 then .ok ((0, 0), [])
  else
    match broadcastDim c r with
    | none => .error .broadcastMismatch
    | some m =>
      if m = r then .ok ((r, r), [.traceShift, .norm, .matmul, .solveLin, .squaring])
      else .error .matmulMismatch

/-! ## The complex scalar field

A computable model of the complex scalar field: rationals with an adjoined
imaginary unit (idealizing `complex128` as exact arithmetic, just as `ℚ`
idealizes `float64`). -/

/-- A complex scalar: real and imaginary rational parts. -/
@[ext]
structure QC where
  re : ℚ
  im : ℚ
  deriving DecidableEq

instance : Zero QC := ⟨⟨0, 0⟩⟩

instance : One QC := ⟨⟨1, 0⟩⟩

instance : Add QC := ⟨fun x y => ⟨x.re + y.re, x.im + y.im⟩⟩

instance : Neg QC := ⟨fun x => ⟨-x.re, -x.im⟩⟩

instance : Mul QC := ⟨fun x y => ⟨x.re * y.re - x.im * y.im, x.re * y.im + x.im * y.re⟩⟩

instance : Inv QC :=
  ⟨fun x => ⟨x.re / (x.re * x.re + x.im * x.im), -x.im / (x.re * x.re + x.im * x.im)⟩⟩

@[simp] theorem QC.zero_re : (0 : QC).re = 0 := rfl

@[simp] theorem QC.zero_im : (0 : QC).im = 0 := rfl

@[simp] theorem QC.one_re : (1 : QC).re = 1 := rfl

@[simp] theorem QC.one_im : (1 : QC).im = 0 := rfl

@[simp] theorem QC.add_re (x y : QC) : (x + y).re = x.re + y.re := rfl

@[simp] theorem QC.add_im (x y : QC) : (x + y).im = x.im + y.im := rfl

@[simp] theorem QC.neg_re (x : QC) : (-x).re = -x.re := rfl

@[simp] theorem QC.neg_im (x : QC) : (-x).im = -x.im := rfl

@[simp] theorem QC.mul_re (x y : QC) : (x * y).re = x.re * y.re - x.im * y.im := rfl

@[simp] theorem QC.mul_im (x y : QC) : (x * y).im = x.re * y.im + x.im * y.re := rfl

@[simp] theorem QC.inv_re (x : QC) : x⁻¹.re = x.re / (x.re * x.re + x.im * x.im) := rfl

@[simp] theorem QC.inv_im (x : QC) : x⁻¹.im = -x.im / (x.re * x.re + x.im * x.im) := rfl

instance : CommRing QC where
  add := (· + ·)
  add_assoc x y z := by ext <;> simp <;> ring
  zero := 0
  zero_add x := by ext <;> simp
  add_zero x := by ext <;> simp
  add_comm x y := by ext <;> simp <;> ring
  mul := (· * ·)
  mul_assoc x y z := by ext <;> simp <;> ring
  one := 1
  one_mul x := by ext <;> simp
  mul_one x := by ext <;> simp
  left_distrib x y z := by ext <;> simp <;> ring
  right_distrib x y z := by ext <;> simp <;> ring
  zero_mul x := by ext <;> simp
  mul_zero x := by ext <;> simp
  mul_comm x y := by ext <;> simp <;> ring
  neg := (- ·)
  neg_add_cancel x := by ext <;> simp
  nsmul := nsmulRec
  zsmul := zsmulRec

instance : Field QC where
  inv := (·⁻¹)
  nnqsmul := _
  qsmul := _
  exists_pair_ne := ⟨0, 1, by decide⟩
  mul_inv_cancel x hx := by
    have hd : x.re * x.re + x.im * x.im ≠ 0 := by
      intro hc
      apply hx
      have hre : x.re = 0 := by nlinarith [sq_nonneg x.re, sq_nonneg x.im]
      have him : x.im = 0 := by nlinarith [sq_nonneg x.re, sq_nonneg x.im]
      ext <;> simp [hre, him]
    ext <;> simp <;> field_simp <;> ring
  inv_zero := by ext <;> simp

/-- The imaginary unit `1j`. -/
def qcI : QC := ⟨0, 1⟩

/-- The real scalar `0.5` as a complex scalar. -/
def qcHalf : QC := ⟨1 / 2, 0⟩

/-- Promotion of a real scalar to the complex field (what multiplying a real
array by `1j` does to its dtype before scaling). -/
def toQC (q : ℚ) : QC := ⟨q, 0⟩

/-! ## The matrix exponential -/

/-- The fixed table of 14 Pade coefficients `b[0] .. b[13]` from the source
(all its float literals are exactly representable integers). -/
def b : Fin 14 → ℚ :=
  ![64764752532480000, 32382376266240000, 7771770303897600, 1187353796428800,
    129060195264000, 10559470521600, 670442572800, 33522128640,
    1323241920, 40840800, 960960, 16380, 182, 1]

/-- The scaling threshold `th13 = 5.37` for the order-13 approximant. -/
def th13 : ℚ := 537 / 100

variable {F : Type} [Field F] [DecidableEq F]

/-- The trace shift `mu = cupy.diag(a).sum() / n`. -/
def mu (n : ℕ) (a : Matrix (Fin n) (Fin n) F) : F :=
  (∑ i, a i i) / (n : F)

/-- The induced 1-norm `cupy.linalg.norm(A, ord=1)`: the maximum over columns
of the sum of absolute values of the column's entries (spec Glossary), with
the collaborator's scalar absolute value passed in as `anorm`.  The fold
starts from 0 because a norm of a nonempty matrix of absolute values is
nonnegative. -/
def nrm1 (anorm : F → ℚ) {n : ℕ} (A : Matrix (Fin n) (Fin n) F) : ℚ :=
  ((List.finRange n).map fun j => ((List.finRange n).map fun i => anorm (A i j)).sum).foldr max 0

/-- The scale exponent: `s = int(math.ceil(math.log2(float(nrmA) / th13))) + 1`
when `nrmA > th13`, else `s = 1`; `math.ceil(math.log2 x)` is exactified as
`Int.clog 2 x` (see `sOf_eq_clog` and its `Real.logb` bridge below). -/
def sOf (nrmA : ℚ) : ℕ :=
  if th13 < nrmA then (Int.clog 2 (nrmA / th13) + 1).toNat else 1

/-- The four Pade polynomial parts `(u1, u2, v1, v2)`, translated line by line
from `_expm_inner` in the source (`b[8] * A` in `v1` uses `A`, not `A2`). -/
def _expm_inner {n : ℕ} (E A A2 A4 A6 : Matrix (Fin n) (Fin n) F) (bv : Fin 14 → F) :
    Matrix (Fin n) (Fin n) F × Matrix (Fin n) (Fin n) F ×
      Matrix (Fin n) (Fin n) F × Matrix (Fin n) (Fin n) F :=
  (bv 13 • A6 + bv 11 • A4 + bv 9 • A2,
   bv 7 • A6 + bv 5 • A4 + bv 3 • A2 + bv 1 • E,
   bv 12 • A6 + bv 10 • A4 + bv 8 • A,
   bv 6 • A6 + bv 4 • A4 + bv 2 • A2 + bv 0 • E)

/-- The numerator/denominator pair `(u, v)` of the [13/13] Pade approximant of
the scaled matrix `As`: the powers `A2 = A @ A`, `A4 = A2 @ A2`,
`A6 = A2 @ A4`, the identity `E`, the parts from `_expm_inner` (with the
coefficient table promoted to the scalar field, as `cupy.asarray(b)` does),
then `u = A @ (A6 @ u1 + u2)` and `v = A6 @ v1 + v2`. -/
def uvOf {n : ℕ} (As : Matrix (Fin n) (Fin n) F) :
    Matrix (Fin n) (Fin n) F × Matrix (Fin n) (Fin n) F :=
  let A2 := As * As
  let A4 := A2 * A2
  let A6 := A2 * A4
  let E : Matrix (Fin n) (Fin n) F := 1
  let p := _expm_inner E As A2 A4 A6 fun i => ((b i : ℚ) : F)
  (As * (A6 * p.1 + p.2.1), A6 * p.2.2.1 + p.2.2.2)

/-- Modelled from the spec: `cupy.linalg.solve` is an external collaborator
whose code is not under `src/`; per the spec (section 4.2) it returns the
unique matrix `X` with `M @ X = B` when `M` is invertible and fails with a
`Singular` error otherwise.  Over an exact field this is
`X = det(M)⁻¹ • adjugate(M) @ B`, and failure is the `none` case. -/
def solve {n : ℕ} (M B : Matrix (Fin n) (Fin n) F) : Option (Matrix (Fin n) (Fin n) F) :=
  if M.det = 0 then none else some ((M.det⁻¹ • M.adjugate) * B)

/-- The matrix exponential, translated from `expm` in the source for a square
`n × n` input (`expmShape` covers the rectangular shape behavior):

* `a.size == 0` (here: `n = 0`) returns the empty matrix at once;
* `mu = diag(a).sum() / n` and `A = a - eye(n) * mu`;
* `nrmA = norm(A, ord=1)`, `s = ceil(log2(nrmA / th13)) + 1` if `nrmA > th13`
  else `s = 1`, and `A /= 2 ** s`;
* `(u, v)` from the [13/13] Pade evaluation, `r13 = solve(-u + v, u + v)`;
* `x = r13` squared exactly `s` times, then `x *= exp(mu)` (the collaborator
  scalar exponential `aexp`, complex or real according to the field). -/
def expm (anorm : F → ℚ) (aexp : F → F) {n : ℕ} (a : Matrix (Fin n) (Fin n) F) :
    Option (Matrix (Fin n) (Fin n) F) :=
  if n = 0 then some 0
  else
    let muv := mu n a
    let A := a - muv • (1 : Matrix (Fin n) (Fin n) F)
    let s := sOf (nrm1 anorm A)
    let As := ((2 : F) ^ s)⁻¹ • A
    let uv := uvOf As
    (solve (-uv.1 + uv.2) (uv.1 + uv.2)).map fun r13 =>
      aexp muv • (fun y => y * y)^[s] r13

/-! ## Matrix cosine and sine

The source's `cosm`/`sinm` each branch on `cupy.iscomplexobj(a)`; following
the spec (section 9) the two branches are explicit separate definitions here:
`cosm`/`sinm` for a complex input, `cosm_real`/`sinm_real` for a real one. -/

/-- Matrix cosine of a complex input:
`0.5 * (expm(1j * a) + expm(-1j * a))`. -/
def cosm (anorm : QC → ℚ) (aexp : QC → QC) {n : ℕ} (a : Matrix (Fin n) (Fin n) QC) :
    Option (Matrix (Fin n) (Fin n) QC) :=
  (expm anorm aexp (qcI • a)).bind fun xp =>
    (expm anorm aexp ((-qcI) • a)).map fun xn => qcHalf • (xp + xn)

/-- Matrix sine of a complex input:
`-0.5 * (expm(1j * a) - expm(-1j * a))`. -/
def sinm (anorm : QC → ℚ) (aexp : QC → QC) {n : ℕ} (a : Matrix (Fin n) (Fin n) QC) :
    Option (Matrix (Fin n) (Fin n) QC) :=
  (expm anorm aexp (qcI • a)).bind fun xp =>
    (expm anorm aexp ((-qcI) • a)).map fun xn => (-qcHalf) • (xp - xn)

/-- Matrix cosine of a real input: `expm(1j * a).real`, one `expm` call on the
complex promotion of `a`, then the entrywise real part. -/
def cosm_real (anorm : QC → ℚ) (aexp : QC → QC) {n : ℕ} (a : Matrix (Fin n) (Fin n) ℚ) :
    Option (Matrix (Fin n) (Fin n) ℚ) :=
  (expm anorm aexp (qcI • a.map toQC)).map fun xp => xp.map QC.re

/-- Matrix sine of a real input: `expm(1j * a).imag`. -/
def sinm_real (anorm : QC → ℚ) (aexp : QC → QC) {n : ℕ} (a : Matrix (Fin n) (Fin n) ℚ) :
    Option (Matrix (Fin n) (Fin n) ℚ) :=
  (expm anorm aexp (qcI • a.map toQC)).map fun xp => xp.map QC.im

/-! ## Helper lemmas -/

theorem khatri_rao_ok {n1 n2 k : ℕ} (A : Matrix (Fin n1) (Fin k) ℚ) (B : Matrix (Fin n2) (Fin k) ℚ) :
    khatri_rao ⟨n1, k, A⟩ ⟨n2, k, B⟩
      = .ok ⟨n1 * n2, k, Matrix.of fun i j => A i.divNat j * B i.modNat j⟩ := by
  unfold khatri_rao
  rw [dif_neg (not_not_intro rfl)]
  rfl

theorem kidx_divNat {m n : ℕ} (i : Fin m) (j : Fin n) : (kidx i j).divNat = i := by
  apply Fin.ext
  show (i.val * n + j.val) / n = i.val
  rw [Nat.add_comm, Nat.add_mul_div_right _ _ j.pos, Nat.div_eq_of_lt j.isLt, Nat.zero_add]

theorem kidx_modNat {m n : ℕ} (i : Fin m) (j : Fin n) : (kidx i j).modNat = j := by
  apply Fin.ext
  show (i.val * n + j.val) % n = j.val
  rw [Nat.add_comm, Nat.add_mul_mod_self_right, Nat.mod_eq_of_lt j.isLt]

theorem solve_spec {F : Type} [Field F] [DecidableEq F] {n : ℕ}
    (M B : Matrix (Fin n) (Fin n) F) (h : M.det ≠ 0) :
    ∃ X, solve M B = some X ∧ M * X = B ∧ ∀ Y, M * Y = B → Y = X := by
  refine ⟨(M.det⁻¹ • M.adjugate) * B, by simp [solve, h], ?_, ?_⟩
  · calc
      M * ((M.det⁻¹ • M.adjugate) * B) = (M * (M.det⁻¹ • M.adjugate)) * B := by
        rw [Matrix.mul_assoc]
      _ = (M.det⁻¹ • (M * M.adjugate)) * B := by rw [Matrix.mul_smul]
      _ = (M.det⁻¹ • (M.det • (1 : Matrix (Fin n) (Fin n) F))) * B := by
        rw [Matrix.mul_adjugate]
      _ = B := by rw [smul_smul, inv_mul_cancel₀ h, one_smul, Matrix.one_mul]
  · intro Y hY
    calc
      Y = (1 : Matrix (Fin n) (Fin n) F) * Y := (Matrix.one_mul Y).symm
      _ = (M.det⁻¹ • (M.adjugate * M)) * Y := by
        rw [Matrix.adjugate_mul, smul_smul, inv_mul_cancel₀ h, one_smul]
      _ = M.det⁻¹ • (M.adjugate * (M * Y)) := by
        rw [Matrix.smul_mul, Matrix.mul_assoc]
      _ = (M.det⁻¹ • M.adjugate) * B := by rw [hY, Matrix.smul_mul]

theorem solve_some_spec {F : Type} [Field F] [DecidableEq F] {n : ℕ}
    (M B X : Matrix (Fin n) (Fin n) F) (hX : solve M B = some X) :
    M * X = B ∧ ∀ Y, M * Y = B → Y = X := by
  by_cases h : M.det = 0
  · simp [solve, h] at hX
  · obtain ⟨Z, hZ, hMZ, huniq⟩ := solve_spec M B h
    rw [hZ] at hX
    injection hX with hX
    subst hX
    exact ⟨hMZ, huniq⟩

theorem solve_self {F : Type} [Field F] [DecidableEq F] {n : ℕ}
    (M : Matrix (Fin n) (Fin n) F) (h : M.det ≠ 0) : solve M M = some 1 := by
  obtain ⟨X, hX, _, huniq⟩ := solve_spec M M h
  rw [hX, huniq 1 (Matrix.mul_one M)]

theorem int_clog_ratCast {q : ℚ} (hq : 1 ≤ q) : Int.clog 2 ((q : ℝ)) = Int.clog 2 q := by
  rw [Int.clog_of_one_le_right _ hq,
    Int.clog_of_one_le_right _ (show (1 : ℝ) ≤ (q : ℝ) by exact_mod_cast hq)]
  congr 2
  rw [← Int.ceil_toNat, ← Int.ceil_toNat, Rat.ceil_cast]

theorem th13_pos : (0 : ℚ) < th13 := by norm_num [th13]

theorem sOf_pos (x : ℚ) : 1 ≤ sOf x := by
  by_cases h : th13 < x
  · have h1 : (1 : ℚ) ≤ x / th13 := (one_le_div th13_pos).mpr h.le
    have h0 : 0 ≤ Int.clog 2 (x / th13) := by
      rw [Int.clog_of_one_le_right _ h1]
      exact Int.natCast_nonneg _
    simp only [sOf, if_pos h]
    omega
  · simp [sOf, h]

theorem sOf_scaled {x : ℚ} (h : th13 < x) :
    (sOf x : ℤ) = Int.clog 2 (x / th13) + 1
    ∧ (sOf x : ℤ) = ⌈Real.logb 2 ((x : ℝ) / ((th13 : ℚ) : ℝ))⌉ + 1 := by
  have h1 : (1 : ℚ) ≤ x / th13 := (one_le_div th13_pos).mpr h.le
  have h0 : 0 ≤ Int.clog 2 (x / th13) := by
    rw [Int.clog_of_one_le_right _ h1]
    exact Int.natCast_nonneg _
  have hc : (sOf x : ℤ) = Int.clog 2 (x / th13) + 1 := by
    simp only [sOf, if_pos h]
    omega
  refine ⟨hc, ?_⟩
  have hcast : (x : ℝ) / ((th13 : ℚ) : ℝ) = ((x / th13 : ℚ) : ℝ) := by push_cast; ring
  have hr0 : (0 : ℝ) ≤ ((x / th13 : ℚ) : ℝ) := by
    exact_mod_cast le_trans zero_le_one h1
  rw [hcast, show (2 : ℝ) = ((2 : ℕ) : ℝ) from by norm_num,
    Real.ceil_logb_natCast hr0, int_clog_ratCast h1]
  exact hc

theorem iterate_sq_one {F : Type} [Field F] [DecidableEq F] {n : ℕ} (s : ℕ) :
    (fun y : Matrix (Fin n) (Fin n) F => y * y)^[s] 1 = 1 :=
  Function.iterate_fixed (by simp) s

theorem uvOf_zero {n : ℕ} :
    uvOf (0 : Matrix (Fin n) (Fin n) ℚ) = (0, b 0 • (1 : Matrix (Fin n) (Fin n) ℚ)) := by
  simp [uvOf, _expm_inner, Rat.cast_id]

theorem b0_ne_zero : b 0 ≠ 0 := by
  simp only [b, Matrix.cons_val_zero]
  norm_num

/-! ## The claims -/

/-- C4: for 2-D inputs of shapes `(n1, k)` and `(n2, k)`, `khatri_rao` returns
the `(n1*n2, k)` matrix whose column `j` is the flattened outer product of
column `j` of `a` and column `j` of `b` (row `i1 * n2 + i2` holds
`a[i1, j] * b[i2, j]`), columns in their original order; in particular the
spec's concrete example evaluates to the matrix with columns `[1,3,0,0]` and
`[0,0,2,4]`. -/
theorem khatri_rao_column_structure :
    (∀ (n1 n2 k : ℕ) (A : Matrix (Fin n1) (Fin k) ℚ) (B : Matrix (Fin n2) (Fin k) ℚ),
      khatri_rao ⟨n1, k, A⟩ ⟨n2, k, B⟩
        = .ok ⟨n1 * n2, k, Matrix.of fun i j => A i.divNat j * B i.modNat j⟩
      ∧ ∀ (i1 : Fin n1) (i2 : Fin n2) (j : Fin k),
          (Matrix.of fun i (j2 : Fin k) => A i.divNat j2 * B i.modNat j2) (kidx i1 i2) j
            = A i1 j * B i2 j)
    ∧ khatri_rao ⟨2, 2, !![1, 0; 0, 1]⟩ ⟨2, 2, !![(1 : ℚ), 2; 3, 4]⟩
        = .ok ⟨4, 2, !![1, 0; 3, 0; 0, 2; 0, 4]⟩ := by
  constructor
  · intro n1 n2 k A B
    refine ⟨khatri_rao_ok A B, ?_⟩
    intro i1 i2 j
    simp [Matrix.of_apply, kidx_divNat, kidx_modNat]
  · rw [khatri_rao_ok]
    show Except.ok (NDArray2.mk 4 2 _) = Except.ok (NDArray2.mk 4 2 _)
    refine congrArg Except.ok (congrArg (NDArray2.mk 4 2) ?_)
    ext i j
    fin_cases i <;> fin_cases j <;>
      norm_num [Fin.divNat, Fin.modNat, Matrix.cons_val_zero, Matrix.cons_val_one,
        Matrix.head_cons, Matrix.tail_cons, Matrix.cons_val_fin_one]

/-- C8: whenever the two 2-D inputs have unequal column counts, `khatri_rao`
fails with the column-count mismatch error and produces no output. -/
theorem khatri_rao_column_mismatch (x y : NDArray2) (h : x.c ≠ y.c) :
    khatri_rao x y = .error .shapeMismatch := by
  unfold khatri_rao
  rw [dif_pos h]

theorem khatri_rao_column_mismatch_witness :
    (NDArray2.mk 3 2 0).c ≠ (NDArray2.mk 2 3 0).c
    ∧ khatri_rao ⟨3, 2, 0⟩ ⟨2, 3, 0⟩ = .error .shapeMismatch :=
  ⟨by decide, khatri_rao_column_mismatch _ _ (by decide)⟩

/-- C9 counterexample: `khatri_rao` does not accept inputs of rank higher
than 2 — a pair of rank-3 shapes is rejected by the dimensionality assertion
before the broadcasting product is reached. -/
theorem khatri_rao_rank3_rejected :
    khatri_raoShape [2, 2, 2] [2, 2, 2] = .error .dimMismatch := rfl

/-- C9 amended: `khatri_rao` requires both inputs to be exactly
two-dimensional; any input of a different rank is rejected with a dimension
error by `_util._assert_2d` before any product is formed, so the broadcasting
generalization of the product expression is unreachable. -/
theorem khatri_rao_rank_check (sa sb : List ℕ) (h : sa.length ≠ 2 ∨ sb.length ≠ 2) :
    khatri_raoShape sa sb = .error .dimMismatch := by
  rcases h with h | h
  · simp [khatri_raoShape, h]
  · by_cases ha : sa.length = 2
    · simp [khatri_raoShape, ha, h]
    · simp [khatri_raoShape, ha]

theorem khatri_rao_rank_check_witness :
    ([1, 2, 3] : List ℕ).length ≠ 2
    ∧ khatri_raoShape [1, 2, 3] [4, 2] = .error .dimMismatch :=
  ⟨by decide, khatri_rao_rank_check _ _ (Or.inl (by decide))⟩

/-- C5 counterexample: `expm` does not report non-square inputs: on a `3 × 1`
input the trace-shift subtraction broadcasts `(3, 1)` against `eye(3)` to a
`3 × 3` matrix and the call returns a `3 × 3` result with no error at all
(so no ShapeMismatch is raised, immediately or otherwise). -/
theorem expm_nonsquare_accepted :
    expmShape 3 1 = .ok ((3, 3), [.traceShift, .norm, .matmul, .solveLin, .squaring])
    ∧ (3 : ℕ) ≠ 1 := ⟨rfl, by decide⟩

/-- C5 amended: `expm` (and hence `cosm`/`sinm`, which feed it `1j * a` of the
same shape) performs no squareness validation.  A non-empty non-square input
of shape `(r, c)` is never reported as a ShapeMismatch: if `c = 1` the input
broadcasts against `eye(r)` and an `(r, r)` result is returned without error;
otherwise the call fails only in the middle of the computation, inside a
collaborator call — at the `A @ A` multiply when `r = 1`, and at the
broadcast of the trace-shift subtraction when `r ≠ 1`. -/
theorem expm_no_square_check (r c : ℕ) (hs : r * c ≠ 0) (hne : r ≠ c) :
    (c = 1 →
      expmShape r c = .ok ((r, r), [.traceShift, .norm, .matmul, .solveLin, .squaring]))
    ∧ (c ≠ 1 → r = 1 → expmShape r c = .error .matmulMismatch)
    ∧ (c ≠ 1 → r ≠ 1 → expmShape r c = .error .broadcastMismatch) := by
  refine ⟨?_, ?_, ?_⟩
  · intro hc
    subst hc
    have hr : r ≠ 1 := hne
    have hr0 : r ≠ 0 := fun h0 => hs (by simp [h0])
    simp [expmShape, broadcastDim, hs, Ne.symm hr, hr0]
  · intro hc hr
    subst hr
    have hc0 : c ≠ 0 := fun h0 => hs (by simp [h0])
    simp [expmShape, broadcastDim, hs, hc, hc0]
  · intro hc hr
    have hcr : c ≠ r := fun hcr => hne hcr.symm
    simp [expmShape, broadcastDim, hs, hc, hcr, hr]

theorem expm_no_square_check_witness :
    (2 * 3 ≠ 0) ∧ (2 : ℕ) ≠ 3
    ∧ ((3 : ℕ) ≠ 1 → (2 : ℕ) ≠ 1 → expmShape 2 3 = .error .broadcastMismatch) :=
  ⟨by decide, by decide, (expm_no_square_check 2 3 (by decide) (by decide)).2.2⟩

/-- C7: on a `0 × 0` input, `expm` returns a `0 × 0` matrix of the same
scalar field immediately, with no error and with no calls into the linear
algebra collaborator (no trace shift, norm, multiply, solve, or squaring:
the recorded collaborator-call list is empty). -/
theorem expm_empty_input :
    expmShape 0 0 = .ok ((0, 0), [])
    ∧ ∀ (anorm : ℚ → ℚ) (aexp : ℚ → ℚ) (a : Matrix (Fin 0) (Fin 0) ℚ),
        expm anorm aexp a = some 0 :=
  ⟨rfl, fun _ _ _ => rfl⟩

/-- C10: any input with zero total element count — `0 × 0`, but also
non-square empty shapes `0 × k` and `n × 0` — takes the `a.size == 0` early
return: `expm` returns a `0 × 0` matrix (of the input's dtype) with no error,
bypassing every later step including any shape failure. -/
theorem expm_empty_any_shape (r c : ℕ) (h : r * c = 0) :
    expmShape r c = .ok ((0, 0), []) := by
  simp [expmShape, h]

theorem expm_empty_any_shape_witness :
    (0 * 5 = 0) ∧ expmShape 0 5 = .ok ((0, 0), []) :=
  ⟨rfl, expm_empty_any_shape 0 5 rfl⟩

/-- C1: in the Pade-13 step, with coefficient table `b` and identity `E`, the
parts computed from the scaled matrix `A` and its powers `A2 = A*A`,
`A4 = A2*A2`, `A6 = A2*A4` are `u1 = b13*A6 + b11*A4 + b9*A2`,
`u2 = b7*A6 + b5*A4 + b3*A2 + b1*E`, `v1 = b12*A6 + b10*A4 + b8*A` (the last
term uses `A` itself), `v2 = b6*A6 + b4*A4 + b2*A2 + b0*E`; then
`u = A*(A6*u1 + u2)` and `v = A6*v1 + v2`, and whenever the solve succeeds,
`r13` is the unique matrix with `(-u+v)*r13 = u+v`. -/
theorem expm_pade_parts {F : Type} [Field F] [DecidableEq F] {n : ℕ}
    (As A2 A4 A6 : Matrix (Fin n) (Fin n) F)
    (hA2 : A2 = As * As) (hA4 : A4 = A2 * A2) (hA6 : A6 = A2 * A4) :
    _expm_inner (1 : Matrix (Fin n) (Fin n) F) As A2 A4 A6 (fun i => ((b i : ℚ) : F))
      = (((b 13 : ℚ) : F) • A6 + ((b 11 : ℚ) : F) • A4 + ((b 9 : ℚ) : F) • A2,
         ((b 7 : ℚ) : F) • A6 + ((b 5 : ℚ) : F) • A4 + ((b 3 : ℚ) : F) • A2
           + ((b 1 : ℚ) : F) • 1,
         ((b 12 : ℚ) : F) • A6 + ((b 10 : ℚ) : F) • A4 + ((b 8 : ℚ) : F) • As,
         ((b 6 : ℚ) : F) • A6 + ((b 4 : ℚ) : F) • A4 + ((b 2 : ℚ) : F) • A2
           + ((b 0 : ℚ) : F) • 1)
    ∧ (∀ u1 u2 v1 v2, _expm_inner (1 : Matrix (Fin n) (Fin n) F) As A2 A4 A6
          (fun i => ((b i : ℚ) : F)) = (u1, u2, v1, v2) →
        uvOf As = (As * (A6 * u1 + u2), A6 * v1 + v2))
    ∧ ∀ r13, solve (-(uvOf As).1 + (uvOf As).2) ((uvOf As).1 + (uvOf As).2) = some r13 →
        (-(uvOf As).1 + (uvOf As).2) * r13 = (uvOf As).1 + (uvOf As).2
        ∧ ∀ r, (-(uvOf As).1 + (uvOf As).2) * r = (uvOf As).1 + (uvOf As).2 → r = r13 := by
  subst hA2 hA4 hA6
  refine ⟨rfl, ?_, ?_⟩
  · intro u1 u2 v1 v2 h
    simp only [uvOf]
    rw [h]
  · intro r13 hsol
    exact solve_some_spec _ _ _ hsol

theorem expm_pade_parts_witness :
    ((0 : Matrix (Fin 1) (Fin 1) ℚ) = 0 * 0)
    ∧ _expm_inner (1 : Matrix (Fin 1) (Fin 1) ℚ) 0 0 0 0 (fun i => ((b i : ℚ) : ℚ))
        = (((b 13 : ℚ) : ℚ) • 0 + ((b 11 : ℚ) : ℚ) • 0 + ((b 9 : ℚ) : ℚ) • 0,
           ((b 7 : ℚ) : ℚ) • 0 + ((b 5 : ℚ) : ℚ) • 0 + ((b 3 : ℚ) : ℚ) • 0
             + ((b 1 : ℚ) : ℚ) • 1,
           ((b 12 : ℚ) : ℚ) • 0 + ((b 10 : ℚ) : ℚ) • 0 + ((b 8 : ℚ) : ℚ) • 0,
           ((b 6 : ℚ) : ℚ) • 0 + ((b 4 : ℚ) : ℚ) • 0 + ((b 2 : ℚ) : ℚ) • 0
             + ((b 0 : ℚ) : ℚ) • 1) :=
  ⟨(zero_mul 0).symm,
   (expm_pade_parts 0 0 0 0 (zero_mul 0).symm (zero_mul 0).symm (zero_mul 0).symm).1⟩

/-- C2: with `nrmA` the induced 1-norm of the trace-shifted matrix and
`th13 = 5.37`, the scale exponent is `s = ceil(log2(nrmA / th13)) + 1` when
`nrmA > th13` (stated both through the exact `Int.clog 2` and through
`Real.logb`) and `s = 1` otherwise; hence `s ≥ 1` on every call, `A` is
divided by `2 ^ s` in all cases, and the squaring loop `x = x * x` runs
exactly `s` times, so at least once. -/
theorem expm_scaling (anorm : ℚ → ℚ) (aexp : ℚ → ℚ) {n : ℕ} (hn : n ≠ 0)
    (a A : Matrix (Fin n) (Fin n) ℚ) (x : ℚ) (s : ℕ)
    (hA : A = a - mu n a • 1) (hx : x = nrm1 anorm A) (hs : s = sOf x) :
    (th13 < x → (s : ℤ) = Int.clog 2 (x / th13) + 1
       ∧ (s : ℤ) = ⌈Real.logb 2 ((x : ℝ) / ((th13 : ℚ) : ℝ))⌉ + 1)
    ∧ (¬ th13 < x → s = 1)
    ∧ 1 ≤ s
    ∧ expm anorm aexp a
        = (solve (-(uvOf (((2 : ℚ) ^ s)⁻¹ • A)).1 + (uvOf (((2 : ℚ) ^ s)⁻¹ • A)).2)
            ((uvOf (((2 : ℚ) ^ s)⁻¹ • A)).1 + (uvOf (((2 : ℚ) ^ s)⁻¹ • A)).2)).map
          fun r13 => aexp (mu n a) • (fun y => y * y)^[s] r13 := by
  subst hA hx hs
  refine ⟨fun h => sOf_scaled h, fun h => by simp [sOf, h], sOf_pos _, ?_⟩
  simp only [expm, if_neg hn]

theorem expm_scaling_witness :
    ((1 : ℕ) ≠ 0)
    ∧ (¬ th13 < nrm1 (fun q => |q|)
        ((0 : Matrix (Fin 1) (Fin 1) ℚ) - mu 1 (0 : Matrix (Fin 1) (Fin 1) ℚ) • 1) →
        sOf (nrm1 (fun q => |q|)
        ((0 : Matrix (Fin 1) (Fin 1) ℚ) - mu 1 (0 : Matrix (Fin 1) (Fin 1) ℚ) • 1)) = 1)
    ∧ 1 ≤ sOf (nrm1 (fun q => |q|)
        ((0 : Matrix (Fin 1) (Fin 1) ℚ) - mu 1 (0 : Matrix (Fin 1) (Fin 1) ℚ) • 1)) :=
  ⟨by decide,
   (expm_scaling (fun q => |q|) (fun y => y) (by decide) 0 _ _ _ rfl rfl rfl).2.1,
   (expm_scaling (fun q => |q|) (fun y => y) (by decide) 0 _ _ _ rfl rfl rfl).2.2.1⟩

/-- C3: for every square all-zero matrix, `expm` returns the identity matrix
(the trace shift is 0, the scaled matrix stays zero, the Pade rational step
yields the identity from `solve(b0*E, b0*E)`, squaring preserves it, and the
final scalar factor is `exp 0 = 1`, the collaborator exponential's value at
zero). -/
theorem expm_zero_matrix {n : ℕ} (anorm : ℚ → ℚ) (aexp : ℚ → ℚ) (hexp : aexp 0 = 1) :
    expm anorm aexp (0 : Matrix (Fin n) (Fin n) ℚ) = some 1 := by
  by_cases hn : n = 0
  · subst hn
    have h01 : (0 : Matrix (Fin 0) (Fin 0) ℚ) = 1 := by
      ext i j
      exact i.elim0
    simp [expm, h01]
  · have hmu : mu n (0 : Matrix (Fin n) (Fin n) ℚ) = 0 := by simp [mu]
    have hdet : (b 0 • (1 : Matrix (Fin n) (Fin n) ℚ)).det ≠ 0 := by
      rw [Matrix.det_smul, Matrix.det_one]
      simp only [Fintype.card_fin, mul_one]
      exact pow_ne_zero n b0_ne_zero
    simp only [expm, if_neg hn, hmu, zero_smul, sub_zero, smul_zero, uvOf_zero,
      neg_zero, zero_add, solve_self _ hdet, hexp, one_smul]
    simp [iterate_sq_one]

theorem expm_zero_matrix_witness :
    ((fun _ : ℚ => (1 : ℚ)) 0 = 1)
    ∧ expm (fun q => |q|) (fun _ => 1) (0 : Matrix (Fin 2) (Fin 2) ℚ) = some 1 :=
  ⟨rfl, expm_zero_matrix _ _ rfl⟩

/-- C6: for a complex square matrix `a`,
`cosm a = 0.5 * (expm(i*a) + expm(-i*a))` and
`sinm a = -0.5 * (expm(i*a) - expm(-i*a))`; for a real square matrix,
`cosm a = Re(expm(i*a))` and `sinm a = Im(expm(i*a))` with a single `expm`
call on the complex promotion, and the output scalar field matches the
input's (the real-input versions return rational matrices by construction).
The final conjuncts ground the constants: `i * i = -1` and `0.5 + 0.5 = 1`. -/
theorem cosm_sinm_from_expm (anorm : QC → ℚ) (aexp : QC → QC) {n : ℕ}
    (a : Matrix (Fin n) (Fin n) QC) (ar : Matrix (Fin n) (Fin n) ℚ) :
    cosm anorm aexp a
      = ((expm anorm aexp (qcI • a)).bind fun xp =>
          (expm anorm aexp ((-qcI) • a)).map fun xn => qcHalf • (xp + xn))
    ∧ sinm anorm aexp a
      = ((expm anorm aexp (qcI • a)).bind fun xp =>
          (expm anorm aexp ((-qcI) • a)).map fun xn => (-qcHalf) • (xp - xn))
    ∧ cosm_real anorm aexp ar
      = ((expm anorm aexp (qcI • ar.map toQC)).map fun xp => xp.map QC.re)
    ∧ sinm_real anorm aexp ar
      = ((expm anorm aexp (qcI • ar.map toQC)).map fun xp => xp.map QC.im)
    ∧ qcI * qcI = -1 ∧ qcHalf + qcHalf = 1 :=
  ⟨rfl, rfl, rfl, rfl, by ext <;> simp [qcI],
   by ext <;> simp [qcHalf] <;> norm_num⟩

end Matfuncs
